import Mathlib

/-!
Verification development for the BackendSecondBrain repository
(Express/Mongoose social backend with an AI content-relevance engine).

The repository contains two variants of the post controller:
 - src/controllers/postController.js (a short variant), embedded below in
   namespace ShortController;
 - src/unnamed/part_003, the full controller (with notifications, trending
   topics), embedded below in namespace FullController.
Their like/unlike preference-update logic is semantically identical, so it
is embedded once, at top level; their feed scorers differ in constants and
are embedded separately.

The AI analysis pipeline is embedded from src/controllers/aiController.js.

Modelling conventions:
 - JavaScript numbers are modelled as Rat (scores) and Int (counters,
   millisecond timestamps); the programs perform no float-specific tricks.
 - JavaScript Map objects (insertion-ordered, unique keys) are modelled as
   association lists with the operations mget / mset / mdel below, which
   mirror Map.get / Map.set / Map.delete.
 - Values that may dynamically be a number or a string (emotion scores,
   toxicity details) are modelled by the JVal sum type.
 - Promise.allSettled outcomes are modelled by the Settled sum type;
   responses of the Hugging Face inference API (JSON arrays of arrays of
   label/score objects) by HFResp, where HFResp.malformed stands for any
   payload that is not an array of arrays.
-/

/-- A dynamically typed JSON scalar: a number or a string. -/
inductive JVal where
  | num (q : ℚ)
  | str (s : String)
deriving DecidableEq, Repr

/-- Association-list model of a JavaScript Map / plain object used as a
dictionary: lookup of the value stored at a key (Map.get, returning
undefined as none). -/
def mget {α : Type} : List (String × α) → String → Option α
  | [], _ => none
  | e :: es, k => if e.1 = k then some e.2 else mget es k

/-- Map.set: replace the value at the key if present, otherwise append the
new entry (JavaScript Maps keep insertion order and append new keys). -/
def mset {α : Type} : List (String × α) → String → α → List (String × α)
  | [], k, v => [(k, v)]
  | e :: es, k, v => if e.1 = k then (k, v) :: es else e :: mset es k v

/-- Map.delete: remove the entry at the key. -/
def mdel {α : Type} : List (String × α) → String → List (String × α)
  | [], _ => []
  | e :: es, k => if e.1 = k then mdel es k else e :: mdel es k

/-- One label/score pair as returned by a Hugging Face classification model. -/
structure LabelScore where
  label : String
  score : ℚ
deriving DecidableEq, Repr

/-- A Hugging Face inference response: either an array of arrays of
label/score objects (the expected shape), or anything else (malformed). -/
inductive HFResp where
  | rows (rs : List (List LabelScore))
  | malformed
deriving DecidableEq, Repr

/-- Outcome of one promise in Promise.allSettled: fulfilled with a value, or
rejected. -/
inductive Settled (α : Type) where
  | fulfilled (value : α)
  | rejected
deriving DecidableEq, Repr

/-- One entry of the emotions array of an analysis record; the score is a
number normally and the string N/A in the error sentinel. -/
structure EmotionEntry where
  emotion : String
  score : JVal
deriving DecidableEq, Repr

/-- The toxicity part of an analysis record. -/
structure ToxicityInfo where
  detected : Bool
  details : List (String × JVal)
deriving DecidableEq, Repr

/-- The aiAnalysis subdocument stored on a post (models/Post.js,
src/unnamed/part_005). -/
structure AiAnalysis where
  sentiment : String
  emotions : List EmotionEntry
  toxicity : ToxicityInfo
  topics : List String
  summary : String
  category : String
deriving DecidableEq, Repr

/-- A post, with only the fields the embedded controllers read. The user id
and timestamps are the string/number forms the controllers compare
(post.user._id.toString(), millisecond epoch times). -/
structure Post where
  userId : String
  content : String
  likes : List String
  createdAt : Int
  aiAnalysis : Option AiAnalysis
deriving DecidableEq, Repr

/-- Number(q.toFixed(2)): rounding to two decimal places
(src/controllers/aiController.js lines 71 and 90; binary-float artifacts of
toFixed are not modelled, no claim depends on the rounded digits). -/
def round2 (q : ℚ) : ℚ := (round (q * 100) : ℤ) / 100

/-- s.toLowerCase() modelled character-wise (the labels involved are
ASCII). -/
def lowerString (s : String) : String :=
  String.mk (s.data.map Char.toLower)

/-- label.toLowerCase().replace(slash-underscore-g, one space)
(src/controllers/aiController.js line 89), modelled character-wise. -/
def cleanLabel (s : String) : String :=
  String.mk ((lowerString s).data.map (fun c => if c = '_' then ' ' else c))

/-- Loop body of getSentimentLabel (src/controllers/aiController.js lines
53-58): the running pair is (maxScore, finalLabel); an item with a strictly
greater score replaces both. -/
def sentStep (acc : ℚ × String) (item : LabelScore) : ℚ × String :=
  if acc.1 < item.score then (item.score, item.label) else acc

/-- getSentimentLabel (src/controllers/aiController.js lines 48-65): scan
for the label with the strictly greatest score (maxScore starts at -1) and
map the Hugging Face label names to sentiment words, defaulting to
Unknown. -/
def getSentimentLabel (scores : List LabelScore) : String :=
  let r := scores.foldl sentStep (-1, "")
  if r.2 = "LABEL_0" then "Negative"
  else if r.2 = "LABEL_1" then "Neutral"
  else if r.2 = "LABEL_2" then "Positive"
  else "Unknown"

/-- getEmotionLabels (src/controllers/aiController.js lines 68-73): keep
entries at or above the threshold (default 0.4), lower-case the label and
round the score to two decimals. -/
def getEmotionLabels (scores : List LabelScore) (threshold : ℚ := 2/5) :
    List EmotionEntry :=
  (scores.filter (fun e => threshold ≤ e.score)).map
    (fun e => ⟨lowerString e.label, JVal.num (round2 e.score)⟩)

/-- Loop body of getToxicityScores (src/controllers/aiController.js lines
87-93): an entry at or above the threshold stores its cleaned label with
the rounded score, and sets isToxic when the cleaned label equals
offensive; entries below the threshold are skipped. -/
def toxStep (threshold : ℚ) (acc : List (String × JVal) × Bool)
    (item : LabelScore) : List (String × JVal) × Bool :=
  if threshold ≤ item.score then
    let clean := cleanLabel item.label
    (mset acc.1 clean (JVal.num (round2 item.score)),
     acc.2 || (clean = "offensive"))
  else acc

/-- getToxicityScores (src/controllers/aiController.js lines 76-96):
categories is scores[0] when present, otherwise scores itself; a non-array
shape yields the error sentinel; otherwise the loop over the categories
runs toxStep from an empty object and isToxic false. -/
def getToxicityScores (scores : HFResp) (threshold : ℚ := 1/2) :
    ToxicityInfo :=
  match scores with
  | .malformed => ⟨false, [("error", .str "Unexpected response format")]⟩
  | .rows [] => ⟨false, []⟩
  | .rows (r :: _) =>
    let out := r.foldl (toxStep threshold) ([], false)
    ⟨out.2, out.1⟩

/-- Sentiment branch of analyzePost (src/controllers/aiController.js lines
184-192): a fulfilled response whose first element is an array goes through
getSentimentLabel; a fulfilled response of any other shape leaves the
Unknown default; a rejected promise yields Error. -/
def sentimentOf : Settled HFResp → String
  | .fulfilled (.rows (r :: _)) => getSentimentLabel r
  | .fulfilled _ => "Unknown"
  | .rejected => "Error"

/-- Emotions branch of analyzePost (lines 194-202). -/
def emotionsOf : Settled HFResp → List EmotionEntry
  | .fulfilled (.rows (r :: _)) => getEmotionLabels r
  | .fulfilled _ => []
  | .rejected => [⟨"Error", .str "N/A"⟩]

/-- Toxicity branch of analyzePost (lines 204-208). -/
def toxicityOf : Settled HFResp → ToxicityInfo
  | .fulfilled v => getToxicityScores v
  | .rejected => ⟨false, [("error", .str "N/A")]⟩

/-- Parsed Gemini JSON payload (topics, summary, category); a missing
topics field is none, mirroring the value.topics or-[] fallback. Empty
strings are the only falsy string values, mirroring the or-fallbacks on
summary and category. -/
structure GeminiOut where
  topics : Option (List String)
  summary : String
  category : String
deriving DecidableEq, Repr

/-- Topics branch of analyzePost (lines 210-218). -/
def geminiTopicsOf : Settled GeminiOut → List String
  | .fulfilled g => g.topics.getD []
  | .rejected => ["AI Error"]

/-- Summary branch of analyzePost (lines 210-218). -/
def geminiSummaryOf : Settled GeminiOut → String
  | .fulfilled g => if g.summary = "" then "AI summary unavailable." else g.summary
  | .rejected => "AI summary unavailable."

/-- Category branch of analyzePost (lines 210-218). -/
def geminiCategoryOf : Settled GeminiOut → String
  | .fulfilled g => if g.category = "" then "Uncategorized" else g.category
  | .rejected => "Error"

/-- The four settled provider outcomes consumed by analyzePost. -/
structure AnalyzeRaw where
  sentimentRes : Settled HFResp
  emotionRes : Settled HFResp
  toxicityRes : Settled HFResp
  geminiRes : Settled GeminiOut
deriving DecidableEq, Repr

/-- The record assembly of analyzePost (src/controllers/aiController.js
lines 184-231): run every per-provider normalizer, then apply the toxicity
override to sentiment, then build the aiAnalysis record. -/
def analyzeRecord (raw : AnalyzeRaw) : AiAnalysis :=
  let sentiment := sentimentOf raw.sentimentRes
  let emotions := emotionsOf raw.emotionRes
  let toxicity := toxicityOf raw.toxicityRes
  let topics := geminiTopicsOf raw.geminiRes
  let summary := geminiSummaryOf raw.geminiRes
  let category := geminiCategoryOf raw.geminiRes
  let sentiment := if toxicity.detected then "Mixed" else sentiment
  ⟨sentiment, emotions, toxicity, topics, summary, category⟩

/-- analyzePost as an operation (src/controllers/aiController.js lines
99-247): missing credentials and a missing post are the only error paths;
provider failures are absorbed by the normalizers, so the operation then
returns a normal result. -/
def analyzePost (hfToken geminiKey : Bool) (post? : Option Post)
    (raw : AnalyzeRaw) : Except String AiAnalysis :=
  if !hfToken then .error "Hugging Face API token missing."
  else if !geminiKey then .error "Gemini API key missing."
  else
    match post? with
    | none => .error "Post not found."
    | some _ => .ok (analyzeRecord raw)

/-- A user preference profile (models/User.js userPreferences): two
JavaScript Maps from names to integer counts, both defaulting to empty. -/
structure Prefs where
  likedCategories : List (String × Int)
  likedTopics : List (String × Int)
deriving DecidableEq, Repr

/-- The empty profile of a fresh user. -/
def emptyPrefs : Prefs := ⟨[], []⟩

/-- The increment on one map key performed by the like branch of likePost
(src/controllers/postController.js lines 132-140, src/unnamed/part_003
lines 388-399): count = get(key) or 0; set(key, count + 1). -/
def incCount (m : List (String × Int)) (k : String) : List (String × Int) :=
  mset m k ((mget m k).getD 0 + 1)

/-- The decrement on one map key performed by the unlike branch of likePost
(src/controllers/postController.js lines 105-120, src/unnamed/part_003
lines 367-379): only if the map has the key; count = get(key) or 0; when
count is positive set(key, count - 1), otherwise delete(key). -/
def decCount (m : List (String × Int)) (k : String) : List (String × Int) :=
  if (mget m k).isSome then
    let count := (mget m k).getD 0
    if 0 < count then mset m k (count - 1) else mdel m k
  else m

/-- Preference update of the like branch of likePost: when the post has an
aiAnalysis, increment the category counter (when the category string is
truthy, that is non-empty) and every topic counter. -/
def likeUpdate (a? : Option AiAnalysis) (p : Prefs) : Prefs :=
  match a? with
  | none => p
  | some a =>
    let cats :=
      if a.category ≠ "" then incCount p.likedCategories a.category
      else p.likedCategories
    let tops := a.topics.foldl incCount p.likedTopics
    ⟨cats, tops⟩

/-- Preference update of the unlike branch of likePost: when the post has an
aiAnalysis, decrement the category counter (when the category string is
non-empty; decCount itself checks map membership as the code does) and
every topic counter. -/
def unlikeUpdate (a? : Option AiAnalysis) (p : Prefs) : Prefs :=
  match a? with
  | none => p
  | some a =>
    let cats :=
      if a.category ≠ "" then decCount p.likedCategories a.category
      else p.likedCategories
    let tops := a.topics.foldl decCount p.likedTopics
    ⟨cats, tops⟩

/-- One like or unlike transition, carrying the liked post's analysis (the
toggle handler picks the branch from current like membership, so a
sequence of transitions is a list of these). -/
inductive LikeOp where
  | like (a? : Option AiAnalysis)
  | unlike (a? : Option AiAnalysis)
deriving DecidableEq, Repr

/-- Apply one like/unlike transition to a profile. -/
def applyOp (p : Prefs) : LikeOp → Prefs
  | .like a? => likeUpdate a? p
  | .unlike a? => unlikeUpdate a? p

/-- Apply a sequence of like/unlike transitions to a profile. -/
def applyOps (ops : List LikeOp) (p : Prefs) : Prefs := ops.foldl applyOp p

/-- Every value stored in the map is non-negative. -/
def MapNonneg (m : List (String × Int)) : Prop :=
  ∀ k v, mget m k = some v → 0 ≤ v

/-- Every counter of the profile is non-negative. -/
def PrefsNonneg (p : Prefs) : Prop :=
  MapNonneg p.likedCategories ∧ MapNonneg p.likedTopics

namespace ShortController

/-- scorePost of getFeedPosts in src/controllers/postController.js (lines
220-247): +10 for followed or own author; + 2 x the liked-category counter
when the post category is non-empty and present in the map; + 1 x the
liked-topic counter for each topic present in the map; + max(0, 5 - ageMs /
(86400000 * 5)); -5 when toxicity was detected. Date.now() is the now
parameter. -/
def scorePost (followedUsersIds : List String) (ownUserId : String)
    (likedCategories likedTopics : List (String × Int)) (now : Int)
    (post : Post) : ℚ :=
  let score : ℚ := 0
  let score :=
    if post.userId ∈ followedUsersIds ∨ post.userId = ownUserId
    then score + 10 else score
  let score :=
    match post.aiAnalysis with
    | some a =>
      if a.category ≠ "" ∧ (mget likedCategories a.category).isSome
      then score + ((mget likedCategories a.category).getD 0 : ℚ) * 2
      else score
    | none => score
  let score :=
    match post.aiAnalysis with
    | some a =>
      a.topics.foldl
        (fun s t =>
          if (mget likedTopics t).isSome
          then s + ((mget likedTopics t).getD 0 : ℚ) else s)
        score
    | none => score
  let score := score + max 0 (5 - ((now - post.createdAt : Int) : ℚ) / (86400000 * 5))
  let score :=
    match post.aiAnalysis with
    | some a => if a.toxicity.detected then score - 5 else score
    | none => score
  score

/-- The comparator of the scoredPosts.sort call (src/controllers/
postController.js lines 254-259) as an ordering relation: an entry sorts
before another when its score is greater, or the scores are equal and its
createdAt is at least the other's. -/
def feedOrder (a b : Post × ℚ) : Prop :=
  b.2 < a.2 ∨ (a.2 = b.2 ∧ b.1.createdAt ≤ a.1.createdAt)

instance : DecidableRel feedOrder := fun a b => by
  unfold feedOrder
  infer_instance

/-- The scoring and sorting steps of getFeedPosts (src/controllers/
postController.js lines 249-259): attach a relevance score to every
candidate post, then sort by score descending with ties broken by
createdAt descending. Array.prototype.sort with a consistent comparator
returns a stable sort in that order, modelled by mergeSort. -/
def rankFeed (followedUsersIds : List String) (ownUserId : String)
    (likedCategories likedTopics : List (String × Int)) (now : Int)
    (posts : List Post) : List (Post × ℚ) :=
  let scoredPosts := posts.map
    (fun post =>
      (post, scorePost followedUsersIds ownUserId likedCategories likedTopics now post))
  scoredPosts.mergeSort (fun a b => decide (feedOrder a b))

end ShortController

namespace FullController

/-- scorePost of getFeedPosts in src/unnamed/part_003 (lines 514-549): +100
for followed or own author; + 10 x the liked-category counter when the post
category is non-empty and present in the map; + 5 x the liked-topic counter
for each topic present in the map; + max(0, 5 - ageMs / (86400000 * 5));
-50 when toxicity was detected. Date.now() is the now parameter; the
topics.length > 0 guard of the source is a no-op kept for faithfulness. -/
def scorePost (followedUsersIds : List String) (ownUserId : String)
    (likedCategories likedTopics : List (String × Int)) (now : Int)
    (post : Post) : ℚ :=
  let score : ℚ := 0
  let score :=
    if post.userId ∈ followedUsersIds ∨ post.userId = ownUserId
    then score + 100 else score
  let score :=
    match post.aiAnalysis with
    | some a =>
      if a.category ≠ "" ∧ (mget likedCategories a.category).isSome
      then score + ((mget likedCategories a.category).getD 0 : ℚ) * 10
      else score
    | none => score
  let score :=
    match post.aiAnalysis with
    | some a =>
      if a.topics.length > 0 then
        a.topics.foldl
          (fun s t =>
            if (mget likedTopics t).isSome
            then s + ((mget likedTopics t).getD 0 : ℚ) * 5 else s)
          score
      else score
    | none => score
  let score := score + max 0 (5 - ((now - post.createdAt : Int) : ℚ) / (86400000 * 5))
  let score :=
    match post.aiAnalysis with
    | some a => if a.toxicity.detected then score - 50 else score
    | none => score
  score

end FullController

/-- The count a map stores at a key, reading a missing key as 0 (the
get-or-0 idiom of likePost and the scorers). -/
def countOf (m : List (String × Int)) (k : String) : Int :=
  (mget m k).getD 0

/-- Modelled from the spec (claim C1 formula, spec sections 4.4 and 8): the
claimed feed score — +100 when the author is followed or is the viewer,
+10 times the liked-category count when present, +5 times the liked-topic
counts summed over the post topics present in the profile, a recency bonus
of max(0, 5 - ageInDays/5), and -50 when toxicity was detected. This is
the spec-side definition used for the refinement comparison against the
implemented scorers. -/
def claimedScore (followedUsersIds : List String) (ownUserId : String)
    (likedCategories likedTopics : List (String × Int)) (now : Int)
    (post : Post) (a : AiAnalysis) : ℚ :=
  (if post.userId ∈ followedUsersIds ∨ post.userId = ownUserId then 100 else 0)
  + (match mget likedCategories a.category with
     | some c => 10 * (c : ℚ)
     | none => 0)
  + 5 * ((a.topics.map
      (fun t =>
        match mget likedTopics t with
        | some c => (c : ℚ)
        | none => 0)).sum)
  + max 0 (5 - (((now - post.createdAt : Int) : ℚ) / 86400000) / 5)
  + (if a.toxicity.detected then -50 else 0)

/-- Sample analysis record: an ordinary analyzed post. -/
def techAnalysis : AiAnalysis :=
  ⟨"Positive", [], ⟨false, []⟩, ["AI"], "a summary", "Technology"⟩

/-- Sample analysis record: the all-providers-failed sentinel shape. -/
def errorAnalysis : AiAnalysis :=
  ⟨"Error", [⟨"Error", .str "N/A"⟩], ⟨false, [("error", .str "N/A")]⟩,
   ["AI Error"], "AI summary unavailable.", "Error"⟩

/-- Sample analysis record: the unanalyzed placeholder written by
createPost, with no topics. -/
def plainAnalysis : AiAnalysis :=
  ⟨"Unknown", [], ⟨false, []⟩, [], "", "Uncategorized"⟩

/-- Sample post by user u2 at epoch time 0 with the placeholder analysis. -/
def cexPost : Post := ⟨"u2", "hello", [], 0, some plainAnalysis⟩

/-- Sample settled provider outcomes in which the toxicity model flagged
the text as offensive and every other provider failed. -/
def toxicRaw : AnalyzeRaw :=
  ⟨.fulfilled (.rows [[⟨"LABEL_2", 9/10⟩]]), .rejected,
   .fulfilled (.rows [[⟨"offensive", 9/10⟩]]), .rejected⟩

/-- Sample profile holding a zero counter for the Error category. -/
def zeroErrorPrefs : Prefs := ⟨[("Error", 0)], [("AI Error", 0)]⟩

/-!
Theorems. First the association-list map laws, then the preference-counter
lemmas, then the per-claim results.
-/

theorem mget_mset_self {α : Type} (m : List (String × α)) (k : String) (v : α) :
    mget (mset m k v) k = some v := by
  induction m with
  | nil => simp [mget, mset]
  | cons e es ih =>
    by_cases h : e.1 = k
    · simp [mget, mset, h]
    · simp [mget, mset, h, ih]

theorem mget_mset_ne {α : Type} (m : List (String × α)) {k k' : String} (v : α)
    (h : k' ≠ k) : mget (mset m k v) k' = mget m k' := by
  induction m with
  | nil => simp [mget, mset, Ne.symm h]
  | cons e es ih =>
    by_cases he : e.1 = k
    · have hne : e.1 ≠ k' := by rw [he]; exact Ne.symm h
      simp [mget, mset, he, hne, Ne.symm h]
    · simp [mget, mset, he, ih]

theorem mget_mdel_self {α : Type} (m : List (String × α)) (k : String) :
    mget (mdel m k) k = none := by
  induction m with
  | nil => simp [mget, mdel]
  | cons e es ih =>
    by_cases h : e.1 = k
    · simp [mdel, h, ih]
    · simp [mget, mdel, h, ih]

theorem mget_mdel_ne {α : Type} (m : List (String × α)) {k k' : String}
    (h : k' ≠ k) : mget (mdel m k) k' = mget m k' := by
  induction m with
  | nil => simp [mdel]
  | cons e es ih =>
    by_cases he : e.1 = k
    · have hne : e.1 ≠ k' := by rw [he]; exact Ne.symm h
      simp [mget, mdel, he, hne, Ne.symm h, ih]
    · simp [mget, mdel, he, ih]

theorem countOf_nonneg {m : List (String × Int)} (h : MapNonneg m)
    (k : String) : 0 ≤ countOf m k := by
  unfold countOf
  cases hm : mget m k with
  | none => simp
  | some v => simpa using h k v hm

theorem mget_incCount_self (m : List (String × Int)) (k : String) :
    mget (incCount m k) k = some (countOf m k + 1) :=
  mget_mset_self m k _

theorem mget_incCount_ne (m : List (String × Int)) {k k' : String}
    (h : k' ≠ k) : mget (incCount m k) k' = mget m k' :=
  mget_mset_ne m _ h

theorem mget_decCount_ne (m : List (String × Int)) {k k' : String}
    (h : k' ≠ k) : mget (decCount m k) k' = mget m k' := by
  unfold decCount
  by_cases hs : (mget m k).isSome
  · simp only [hs, if_true]
    by_cases hp : 0 < (mget m k).getD 0
    · simp only [hp, if_true]
      exact mget_mset_ne m _ h
    · simp only [hp, if_false]
      exact mget_mdel_ne m h
  · simp [hs]

theorem decCount_absent {m : List (String × Int)} {k : String}
    (h : mget m k = none) : decCount m k = m := by
  unfold decCount
  simp [h]

theorem MapNonneg_mset {m : List (String × Int)} {k : String} {v : Int}
    (hm : MapNonneg m) (hv : 0 ≤ v) : MapNonneg (mset m k v) := by
  intro k' v' h'
  by_cases he : k' = k
  · subst he
    rw [mget_mset_self] at h'
    cases h'
    exact hv
  · rw [mget_mset_ne m v he] at h'
    exact hm k' v' h'

theorem MapNonneg_mdel {m : List (String × Int)} {k : String}
    (hm : MapNonneg m) : MapNonneg (mdel m k) := by
  intro k' v' h'
  by_cases he : k' = k
  · subst he
    rw [mget_mdel_self] at h'
    cases h'
  · rw [mget_mdel_ne m he] at h'
    exact hm k' v' h'

theorem MapNonneg_incCount {m : List (String × Int)} (hm : MapNonneg m)
    (k : String) : MapNonneg (incCount m k) :=
  MapNonneg_mset hm
    (by have := countOf_nonneg hm k; unfold countOf at this; omega)

theorem MapNonneg_decCount {m : List (String × Int)} (hm : MapNonneg m)
    (k : String) : MapNonneg (decCount m k) := by
  unfold decCount
  by_cases hs : (mget m k).isSome
  · simp only [hs, if_true]
    by_cases hp : 0 < (mget m k).getD 0
    · simp only [hp, if_true]
      exact MapNonneg_mset hm (by omega)
    · simp only [hp, if_false]
      exact MapNonneg_mdel hm
  · simpa [hs] using hm

theorem MapNonneg_incFold {ts : List String} :
    ∀ {m : List (String × Int)}, MapNonneg m →
      MapNonneg (ts.foldl incCount m) := by
  induction ts with
  | nil => intro m hm; simpa using hm
  | cons t ts ih =>
    intro m hm
    simpa using ih (MapNonneg_incCount hm t)

theorem MapNonneg_decFold {ts : List String} :
    ∀ {m : List (String × Int)}, MapNonneg m →
      MapNonneg (ts.foldl decCount m) := by
  induction ts with
  | nil => intro m hm; simpa using hm
  | cons t ts ih =>
    intro m hm
    simpa using ih (MapNonneg_decCount hm t)

theorem countOf_incCount_self (m : List (String × Int)) (k : String) :
    countOf (incCount m k) k = countOf m k + 1 := by
  unfold countOf
  rw [mget_incCount_self]
  rfl

theorem countOf_incCount_ne (m : List (String × Int)) {k k' : String}
    (h : k' ≠ k) : countOf (incCount m k) k' = countOf m k' := by
  unfold countOf
  rw [mget_incCount_ne m h]

theorem countOf_incFold (ts : List String) :
    ∀ (m : List (String × Int)) (k : String),
      countOf (ts.foldl incCount m) k = countOf m k + (ts.count k : Int) := by
  induction ts with
  | nil => intro m k; simp
  | cons t ts ih =>
    intro m k
    rw [List.foldl_cons, ih (incCount m t) k]
    by_cases he : k = t
    · subst he
      rw [countOf_incCount_self]
      simp [List.count_cons]
      omega
    · rw [countOf_incCount_ne m he]
      simp [List.count_cons, he]

theorem decCount_pos {m : List (String × Int)} {k : String}
    (hs : (mget m k).isSome) (hp : 0 < (mget m k).getD 0) :
    decCount m k = mset m k ((mget m k).getD 0 - 1) := by
  unfold decCount
  simp [hs, hp]

theorem countOf_dec_inc (m : List (String × Int)) (k : String)
    (hm : MapNonneg m) :
    ∀ k', countOf (decCount (incCount m k) k) k' = countOf m k' := by
  have hs : (mget (incCount m k) k).isSome := by
    rw [mget_incCount_self]; rfl
  have hg : (mget (incCount m k) k).getD 0 = countOf m k + 1 := by
    rw [mget_incCount_self]; rfl
  have hp : 0 < (mget (incCount m k) k).getD 0 := by
    rw [hg]
    have := countOf_nonneg hm k
    omega
  intro k'
  rw [decCount_pos hs hp, hg]
  by_cases he : k' = k
  · subst he
    unfold countOf
    rw [mget_mset_self]
    simp
  · unfold countOf
    rw [mget_mset_ne _ _ he, mget_incCount_ne m he]

theorem countOf_mset_self (m : List (String × Int)) (k : String) (v : Int) :
    countOf (mset m k v) k = v := by
  unfold countOf
  rw [mget_mset_self]
  rfl

theorem countOf_mset_ne (m : List (String × Int)) {k k' : String} (v : Int)
    (h : k' ≠ k) : countOf (mset m k v) k' = countOf m k' := by
  unfold countOf
  rw [mget_mset_ne m v h]

theorem decFold_inverts (ts : List String) :
    ∀ (M m : List (String × Int)), MapNonneg M → MapNonneg m →
      (∀ k, countOf M k = countOf m k + (ts.count k : Int)) →
      ∀ k, countOf (ts.foldl decCount M) k = countOf m k := by
  induction ts with
  | nil =>
    intro M m _ _ hc k
    simpa using hc k
  | cons t ts ih =>
    intro M m hM hm hc k
    have hMt : countOf M t = countOf m t + ((ts.count t : Int) + 1) := by
      have := hc t
      simpa [List.count_cons] using this
    have hpos : 0 < countOf M t := by
      have := countOf_nonneg hm t
      omega
    have hs : (mget M t).isSome := by
      rcases hg : mget M t with _ | v
      · exfalso
        unfold countOf at hpos
        rw [hg] at hpos
        simp at hpos
      · rfl
    have hgd : (mget M t).getD 0 = countOf M t := rfl
    have hposd : 0 < (mget M t).getD 0 := by rw [hgd]; exact hpos
    rw [List.foldl_cons, decCount_pos hs hposd]
    apply ih (mset M t ((mget M t).getD 0 - 1)) m
    · exact MapNonneg_mset hM (by omega)
    · exact hm
    · intro k'
      by_cases he : k' = t
      · rw [he, countOf_mset_self, hgd]
        omega
      · rw [countOf_mset_ne _ _ he, hc k']
        simp [List.count_cons, he]

theorem decFold_none (ts : List String) :
    ∀ (m : List (String × Int)) (t : String), mget m t = none →
      mget (ts.foldl decCount m) t = none := by
  induction ts with
  | nil => intro m t h; simpa using h
  | cons t' ts ih =>
    intro m t h
    rw [List.foldl_cons]
    apply ih
    by_cases he : t = t'
    · subst he
      rw [decCount_absent h]
      exact h
    · rw [mget_decCount_ne m he]
      exact h

theorem decFold_removes (ts : List String) :
    ∀ (m : List (String × Int)) (t : String) (c : Int), t ∈ ts →
      mget m t = some c → c ≤ 0 →
      mget (ts.foldl decCount m) t = none := by
  induction ts with
  | nil => intro m t c h; cases h
  | cons t' ts ih =>
    intro m t c hmem hget hle
    rw [List.foldl_cons]
    by_cases he : t = t'
    · subst he
      have hdel : decCount m t = mdel m t := by
        unfold decCount
        simp [hget]
        omega
      rw [hdel]
      exact decFold_none ts (mdel m t) t (mget_mdel_self m t)
    · have hmem' : t ∈ ts := by
        rcases List.mem_cons.1 hmem with h | h
        · exact absurd h he
        · exact h
      apply ih (decCount m t') t c hmem'
      · rw [mget_decCount_ne m he]
        exact hget
      · exact hle

theorem PrefsNonneg_applyOp {p : Prefs} (hp : PrefsNonneg p) (op : LikeOp) :
    PrefsNonneg (applyOp p op) := by
  obtain ⟨hc, ht⟩ := hp
  cases op with
  | like a? =>
    cases a? with
    | none => exact ⟨hc, ht⟩
    | some a =>
      constructor
      · by_cases hcat : a.category ≠ ""
        · simpa [applyOp, likeUpdate, hcat] using MapNonneg_incCount hc a.category
        · simpa [applyOp, likeUpdate, hcat] using hc
      · simpa [applyOp, likeUpdate] using MapNonneg_incFold ht
  | unlike a? =>
    cases a? with
    | none => exact ⟨hc, ht⟩
    | some a =>
      constructor
      · by_cases hcat : a.category ≠ ""
        · simpa [applyOp, unlikeUpdate, hcat] using MapNonneg_decCount hc a.category
        · simpa [applyOp, unlikeUpdate, hcat] using hc
      · simpa [applyOp, unlikeUpdate] using MapNonneg_decFold ht

theorem PrefsNonneg_applyOps (ops : List LikeOp) :
    ∀ {p : Prefs}, PrefsNonneg p → PrefsNonneg (applyOps ops p) := by
  induction ops with
  | nil => intro p hp; simpa [applyOps] using hp
  | cons op ops ih =>
    intro p hp
    simpa [applyOps] using ih (PrefsNonneg_applyOp hp op)

theorem isSome_incFold (ts : List String) :
    ∀ (m : List (String × Int)) (k : String),
      (mget (ts.foldl incCount m) k).isSome ↔ (mget m k).isSome ∨ k ∈ ts := by
  induction ts with
  | nil => intro m k; simp
  | cons t ts ih =>
    intro m k
    rw [List.foldl_cons, ih (incCount m t) k]
    by_cases he : k = t
    · subst he
      rw [mget_incCount_self]
      simp
    · rw [mget_incCount_ne m he]
      simp [he]

theorem mget_incFold_mem (ts : List String) (m : List (String × Int))
    {t : String} (ht : t ∈ ts) :
    mget (ts.foldl incCount m) t = some (countOf m t + (ts.count t : Int)) := by
  have hs : (mget (ts.foldl incCount m) t).isSome :=
    (isSome_incFold ts m t).2 (Or.inr ht)
  rcases hg : mget (ts.foldl incCount m) t with _ | v
  · rw [hg] at hs
    cases hs
  · have hv : v = countOf m t + (ts.count t : Int) := by
      have := countOf_incFold ts m t
      unfold countOf at this
      rw [hg] at this
      simpa using this
    rw [hv]

theorem emptyPrefs_nonneg : PrefsNonneg emptyPrefs :=
  ⟨fun k v h => by simp [emptyPrefs, mget] at h,
   fun k v h => by simp [emptyPrefs, mget] at h⟩

/-- Claim C3, counterexample: liking and then unliking a Technology/AI post
from a fresh profile does not restore the empty profile — the unlike branch
stores an explicit 0 (count greater than 0 takes the set branch with count
minus 1) instead of deleting the keys, so the claim that keys absent before
the like are absent afterwards is false. -/
theorem like_unlike_not_exact_roundtrip :
    unlikeUpdate (some techAnalysis) (likeUpdate (some techAnalysis) emptyPrefs)
      = ⟨[("Technology", 0)], [("AI", 0)]⟩
    ∧ unlikeUpdate (some techAnalysis) (likeUpdate (some techAnalysis) emptyPrefs)
      ≠ emptyPrefs := by
  decide

/-- Claim C3 (amended): for a profile with non-negative counters, a like
followed by an unlike of the same post restores every counter read with
default 0 to its prior value, for categories and topics alike; however a
key absent before the like may remain present with a stored count of 0. -/
theorem like_unlike_roundtrip_counts (p : Prefs) (a? : Option AiAnalysis)
    (hp : PrefsNonneg p) :
    (∀ k, countOf (unlikeUpdate a? (likeUpdate a? p)).likedCategories k
        = countOf p.likedCategories k)
    ∧ ∀ t, countOf (unlikeUpdate a? (likeUpdate a? p)).likedTopics t
        = countOf p.likedTopics t := by
  obtain ⟨hc, ht⟩ := hp
  cases a? with
  | none => exact ⟨fun _ => rfl, fun _ => rfl⟩
  | some a =>
    constructor
    · intro k
      by_cases hcat : a.category ≠ ""
      · have := countOf_dec_inc p.likedCategories a.category hc k
        simpa [likeUpdate, unlikeUpdate, hcat] using this
      · simp [likeUpdate, unlikeUpdate, hcat]
    · intro t
      have hgoal :
          countOf (a.topics.foldl decCount (a.topics.foldl incCount p.likedTopics)) t
            = countOf p.likedTopics t := by
        apply decFold_inverts a.topics _ p.likedTopics (MapNonneg_incFold ht) ht
        intro k
        exact countOf_incFold a.topics p.likedTopics k
      simpa [likeUpdate, unlikeUpdate] using hgoal

theorem like_unlike_roundtrip_counts_witness :
    countOf (unlikeUpdate (some techAnalysis)
        (likeUpdate (some techAnalysis) emptyPrefs)).likedCategories "Technology"
      = countOf emptyPrefs.likedCategories "Technology" :=
  (like_unlike_roundtrip_counts emptyPrefs (some techAnalysis)
    emptyPrefs_nonneg).1 "Technology"

/-- Claim C4: after any sequence of like/unlike transitions from a fresh
profile, every stored counter is non-negative; and a decrement that would
take a counter below zero (the stored count is at most 0) deletes the key
from the map instead of storing a value, for the category counter and for
any topic counter alike. -/
theorem prefs_counts_nonneg_and_removal :
    (∀ ops : List LikeOp, PrefsNonneg (applyOps ops emptyPrefs))
    ∧ (∀ (p : Prefs) (a : AiAnalysis) (c : Int), a.category ≠ "" →
        mget p.likedCategories a.category = some c → c ≤ 0 →
        mget (unlikeUpdate (some a) p).likedCategories a.category = none)
    ∧ (∀ (p : Prefs) (a : AiAnalysis) (t : String) (c : Int), t ∈ a.topics →
        mget p.likedTopics t = some c → c ≤ 0 →
        mget (unlikeUpdate (some a) p).likedTopics t = none) := by
  refine ⟨?_, ?_, ?_⟩
  · intro ops
    exact PrefsNonneg_applyOps ops emptyPrefs_nonneg
  · intro p a c hcat hget hle
    have hdel : decCount p.likedCategories a.category
        = mdel p.likedCategories a.category := by
      unfold decCount
      simp [hget, show ¬ (0 : Int) < c by omega]
    have hfin : mget (decCount p.likedCategories a.category) a.category = none := by
      rw [hdel]
      exact mget_mdel_self _ _
    simpa [unlikeUpdate, hcat] using hfin
  · intro p a t c hmem hget hle
    have hfin := decFold_removes a.topics p.likedTopics t c hmem hget hle
    simpa [unlikeUpdate] using hfin

theorem prefs_counts_nonneg_and_removal_witness :
    PrefsNonneg (applyOps
      [LikeOp.like (some techAnalysis), LikeOp.unlike (some techAnalysis)]
      emptyPrefs)
    ∧ mget (unlikeUpdate (some errorAnalysis) zeroErrorPrefs).likedCategories
        "Error" = none :=
  ⟨prefs_counts_nonneg_and_removal.1
    [LikeOp.like (some techAnalysis), LikeOp.unlike (some techAnalysis)],
   prefs_counts_nonneg_and_removal.2.1 zeroErrorPrefs errorAnalysis 0
    (by decide) (by decide) (by decide)⟩

/-- Claim C10: a like of a post whose record carries any non-empty category
string — the sentinels Uncategorized and Error included — increments that
exact category counter by one, and (for a record whose topic list has no
duplicates) increments the counter of every topic of the record, the
sentinel AI Error included, by one. -/
theorem like_increments_sentinel_categories (p : Prefs) (a : AiAnalysis)
    (hcat : a.category ≠ "") (hnd : a.topics.Nodup) :
    mget (likeUpdate (some a) p).likedCategories a.category
      = some (countOf p.likedCategories a.category + 1)
    ∧ ∀ t ∈ a.topics,
        mget (likeUpdate (some a) p).likedTopics t
          = some (countOf p.likedTopics t + 1) := by
  constructor
  · simpa [likeUpdate, hcat] using
      mget_incCount_self p.likedCategories a.category
  · intro t hmem
    have h := mget_incFold_mem a.topics p.likedTopics hmem
    have hcount : a.topics.count t = 1 := List.count_eq_one_of_mem hnd hmem
    rw [hcount] at h
    simpa [likeUpdate] using h

theorem like_increments_sentinel_categories_witness :
    mget (likeUpdate (some errorAnalysis) emptyPrefs).likedCategories
        errorAnalysis.category
      = some (countOf emptyPrefs.likedCategories errorAnalysis.category + 1)
    ∧ ∀ t ∈ errorAnalysis.topics,
        mget (likeUpdate (some errorAnalysis) emptyPrefs).likedTopics t
          = some (countOf emptyPrefs.likedTopics t + 1) :=
  like_increments_sentinel_categories emptyPrefs errorAnalysis
    (by decide) (by decide)

theorem sentFold_no_update (l : List LabelScore) :
    ∀ (ms : ℚ) (fl : String), (∀ j ∈ l, j.score ≤ ms) →
      l.foldl sentStep (ms, fl) = (ms, fl) := by
  induction l with
  | nil => intro ms fl _; rfl
  | cons x xs ih =>
    intro ms fl h
    have hx : ¬ ms < x.score := not_lt.2 (h x (List.mem_cons_self x xs))
    have hstep : sentStep (ms, fl) x = (ms, fl) := by simp [sentStep, hx]
    rw [List.foldl_cons, hstep]
    exact ih ms fl (fun j hj => h j (List.mem_cons_of_mem x hj))

theorem sentFold_max (l : List LabelScore) :
    ∀ (ms : ℚ) (fl : String) (m : LabelScore), m ∈ l → ms < m.score →
      (∀ j ∈ l, j.score ≤ m.score) →
      (∀ j ∈ l, j.score = m.score → j.label = m.label) →
      (l.foldl sentStep (ms, fl)).2 = m.label := by
  induction l with
  | nil => intro ms fl m hm; cases hm
  | cons x xs ih =>
    intro ms fl m hm hms hmax huniq
    by_cases hx : ms < x.score
    · have hstep : sentStep (ms, fl) x = (x.score, x.label) := by
        simp [sentStep, hx]
      rw [List.foldl_cons, hstep]
      by_cases hxm : x.score = m.score
      · have hlab : x.label = m.label := huniq x (List.mem_cons_self x xs) hxm
        have hupd : xs.foldl sentStep (x.score, x.label) = (x.score, x.label) :=
          sentFold_no_update xs x.score x.label (fun j hj => by
            rw [hxm]; exact hmax j (List.mem_cons_of_mem x hj))
        rw [hupd]
        exact hlab
      · have hxlt : x.score < m.score :=
          lt_of_le_of_ne (hmax x (List.mem_cons_self x xs)) hxm
        have hm' : m ∈ xs := by
          rcases List.mem_cons.1 hm with h | h
          · exfalso
            rw [h] at hxlt
            exact lt_irrefl _ hxlt
          · exact h
        exact ih x.score x.label m hm' hxlt
          (fun j hj => hmax j (List.mem_cons_of_mem x hj))
          (fun j hj => huniq j (List.mem_cons_of_mem x hj))
    · have hstep : sentStep (ms, fl) x = (ms, fl) := by simp [sentStep, hx]
      rw [List.foldl_cons, hstep]
      have hm' : m ∈ xs := by
        rcases List.mem_cons.1 hm with h | h
        · exfalso
          rw [h] at hms
          exact hx hms
        · exact h
      exact ih ms fl m hm' hms
        (fun j hj => hmax j (List.mem_cons_of_mem x hj))
        (fun j hj => huniq j (List.mem_cons_of_mem x hj))

/-- Claim C6, counterexample: a fulfilled sentiment response of an
unexpected shape (not an array of arrays) yields the label Unknown, not
Error — only a rejected provider call yields Error, so the claim that any
malformed response yields Error is false. -/
theorem malformed_sentiment_not_error :
    sentimentOf (Settled.fulfilled HFResp.malformed) = "Unknown"
    ∧ sentimentOf (Settled.fulfilled HFResp.malformed) ≠ "Error" := by
  decide

/-- Claim C6 (amended): on a well-formed response whose distribution has a
unique maximum above the initial sentinel -1, the normalizer maps the
maximal label LABEL_0 / LABEL_1 / LABEL_2 to Negative / Neutral / Positive
(anything else to Unknown); a rejected provider call yields Error; but a
fulfilled malformed response yields Unknown, not Error. -/
theorem sentiment_normalizer_spec :
    (∀ (r : List LabelScore) (rest : List (List LabelScore)) (m : LabelScore),
      m ∈ r → (-1 : ℚ) < m.score → (∀ j ∈ r, j.score ≤ m.score) →
      (∀ j ∈ r, j.score = m.score → j.label = m.label) →
      sentimentOf (Settled.fulfilled (HFResp.rows (r :: rest)))
        = (if m.label = "LABEL_0" then "Negative"
           else if m.label = "LABEL_1" then "Neutral"
           else if m.label = "LABEL_2" then "Positive" else "Unknown"))
    ∧ sentimentOf Settled.rejected = "Error"
    ∧ sentimentOf (Settled.fulfilled HFResp.malformed) = "Unknown" := by
  refine ⟨?_, rfl, rfl⟩
  intro r rest m hm hgt hmax huniq
  have hfold := sentFold_max r (-1) "" m hm hgt hmax huniq
  simp only [sentimentOf, getSentimentLabel]
  rw [hfold]

theorem sentiment_normalizer_spec_witness :
    sentimentOf (Settled.fulfilled (HFResp.rows
      [[⟨"LABEL_2", 9/10⟩]])) = "Positive" := by
  have hmax : ∀ j ∈ [(⟨"LABEL_2", 9/10⟩ : LabelScore)],
      j.score ≤ (⟨"LABEL_2", 9/10⟩ : LabelScore).score := by
    intro j hj
    rcases List.mem_cons.1 hj with rfl | hj'
    · norm_num
    · cases hj'
  have huniq : ∀ j ∈ [(⟨"LABEL_2", 9/10⟩ : LabelScore)],
      j.score = (⟨"LABEL_2", 9/10⟩ : LabelScore).score →
      j.label = (⟨"LABEL_2", 9/10⟩ : LabelScore).label := by
    intro j hj _
    rcases List.mem_cons.1 hj with rfl | hj'
    · rfl
    · cases hj'
  have h := sentiment_normalizer_spec.1
    [⟨"LABEL_2", 9/10⟩] [] ⟨"LABEL_2", 9/10⟩
    (List.mem_cons_self _ _) (by norm_num) hmax huniq
  rw [h]
  decide

/-- Claim C2: whatever the four settled provider outcomes were, if the
assembled record reports toxicity as detected then its sentiment is Mixed
— the override runs after every individual normalizer. -/
theorem toxicity_forces_mixed_sentiment (raw : AnalyzeRaw)
    (h : (analyzeRecord raw).toxicity.detected = true) :
    (analyzeRecord raw).sentiment = "Mixed" := by
  unfold analyzeRecord at h ⊢
  simp only at h ⊢
  simp [h]

theorem toxicity_forces_mixed_sentiment_witness :
    (analyzeRecord toxicRaw).sentiment = "Mixed" := by
  apply toxicity_forces_mixed_sentiment toxicRaw
  have hq : (1:ℚ)/2 ≤ 9/10 := by norm_num
  simp only [analyzeRecord, toxicRaw, toxicityOf, getToxicityScores,
    List.foldl_cons, List.foldl_nil, toxStep, hq, if_true]
  decide

/-- Claim C5: when all four provider calls reject, analyzePost still
returns a normal (ok) result whose record carries the sentinel values:
sentiment Error, the single Error/N-A emotion entry, toxicity not detected
with an error detail, the AI Error topic, and category Error. -/
theorem all_providers_failed_sentinel_record (p : Post) :
    analyzePost true true (some p)
        ⟨Settled.rejected, Settled.rejected, Settled.rejected, Settled.rejected⟩
      = Except.ok ⟨"Error", [⟨"Error", JVal.str "N/A"⟩],
          ⟨false, [("error", JVal.str "N/A")]⟩, ["AI Error"],
          "AI summary unavailable.", "Error"⟩ := rfl

theorem toxFold_detected (th : ℚ) (items : List LabelScore) :
    ∀ acc : List (String × JVal) × Bool,
      ((items.foldl (toxStep th) acc).2 = true
        ↔ acc.2 = true
          ∨ ∃ i ∈ items, th ≤ i.score ∧ cleanLabel i.label = "offensive") := by
  induction items with
  | nil => intro acc; simp
  | cons i is ih =>
    intro acc
    rw [List.foldl_cons, ih (toxStep th acc i)]
    by_cases hsc : th ≤ i.score
    · simp only [toxStep, hsc, if_true, Bool.or_eq_true, decide_eq_true_eq]
      constructor
      · rintro ((h | h) | h)
        · exact Or.inl h
        · exact Or.inr ⟨i, List.mem_cons_self i is, hsc, h⟩
        · obtain ⟨j, hj, hjs⟩ := h
          exact Or.inr ⟨j, List.mem_cons_of_mem i hj, hjs⟩
      · rintro (h | ⟨j, hj, hjs, hjl⟩)
        · exact Or.inl (Or.inl h)
        · rcases List.mem_cons.1 hj with rfl | hj'
          · exact Or.inl (Or.inr hjl)
          · exact Or.inr ⟨j, hj', hjs, hjl⟩
    · simp only [toxStep, hsc, if_false]
      constructor
      · rintro (h | h)
        · exact Or.inl h
        · obtain ⟨j, hj, hjs⟩ := h
          exact Or.inr ⟨j, List.mem_cons_of_mem i hj, hjs⟩
      · rintro (h | ⟨j, hj, hjs, hjl⟩)
        · exact Or.inl h
        · rcases List.mem_cons.1 hj with rfl | hj'
          · exact absurd hjs hsc
          · exact Or.inr ⟨j, hj', hjs, hjl⟩

theorem toxFold_key (th : ℚ) (items : List LabelScore) :
    ∀ (acc : List (String × JVal) × Bool) (k : String),
      ((mget (items.foldl (toxStep th) acc).1 k).isSome
        ↔ (mget acc.1 k).isSome
          ∨ ∃ i ∈ items, th ≤ i.score ∧ cleanLabel i.label = k) := by
  induction items with
  | nil => intro acc k; simp
  | cons i is ih =>
    intro acc k
    rw [List.foldl_cons, ih (toxStep th acc i) k]
    by_cases hsc : th ≤ i.score
    · simp only [toxStep, hsc, if_true]
      have hmset : (mget (mset acc.1 (cleanLabel i.label)
            (JVal.num (round2 i.score))) k).isSome
          ↔ ((mget acc.1 k).isSome ∨ cleanLabel i.label = k) := by
        by_cases he : k = cleanLabel i.label
        · rw [he, mget_mset_self]
          simp
        · rw [mget_mset_ne _ _ he]
          simp [Ne.symm he]
      rw [hmset]
      constructor
      · rintro ((h | h) | h)
        · exact Or.inl h
        · exact Or.inr ⟨i, List.mem_cons_self i is, hsc, h⟩
        · obtain ⟨j, hj, hjs⟩ := h
          exact Or.inr ⟨j, List.mem_cons_of_mem i hj, hjs⟩
      · rintro (h | ⟨j, hj, hjs, hjl⟩)
        · exact Or.inl (Or.inl h)
        · rcases List.mem_cons.1 hj with rfl | hj'
          · exact Or.inl (Or.inr hjl)
          · exact Or.inr ⟨j, hj', hjs, hjl⟩
    · simp only [toxStep, hsc, if_false]
      constructor
      · rintro (h | h)
        · exact Or.inl h
        · obtain ⟨j, hj, hjs⟩ := h
          exact Or.inr ⟨j, List.mem_cons_of_mem i hj, hjs⟩
      · rintro (h | ⟨j, hj, hjs, hjl⟩)
        · exact Or.inl h
        · rcases List.mem_cons.1 hj with rfl | hj'
          · exact absurd hjs hsc
          · exact Or.inr ⟨j, hj', hjs, hjl⟩

/-- Claim C7: for a successful well-formed toxicity response, the details
object holds exactly the cleaned labels (lower-cased, underscores to
spaces) of the entries scoring at or above the 0.5 threshold, and detected
is true exactly when such an entry cleans to offensive; sub-threshold
entries set neither a detail nor the flag. -/
theorem toxicity_normalizer_threshold_spec (r : List LabelScore)
    (rest : List (List LabelScore)) (k : String) :
    ((mget (getToxicityScores (HFResp.rows (r :: rest))).details k).isSome
      ↔ ∃ i ∈ r, 1/2 ≤ i.score ∧ cleanLabel i.label = k)
    ∧ ((getToxicityScores (HFResp.rows (r :: rest))).detected = true
      ↔ ∃ i ∈ r, 1/2 ≤ i.score ∧ cleanLabel i.label = "offensive") := by
  constructor
  · have h := toxFold_key (1/2) r ([], false) k
    simpa [getToxicityScores, mget] using h
  · have h := toxFold_detected (1/2) r ([], false)
    simpa [getToxicityScores] using h

theorem fullTopicsFold (likedTopics : List (String × Int)) (ts : List String) :
    ∀ x : ℚ,
      ts.foldl
        (fun s t =>
          if (mget likedTopics t).isSome
          then s + ((mget likedTopics t).getD 0 : ℚ) * 5 else s) x
      = x + 5 * ((ts.map
          (fun t =>
            match mget likedTopics t with
            | some c => (c : ℚ)
            | none => 0)).sum) := by
  induction ts with
  | nil => intro x; simp
  | cons t ts ih =>
    intro x
    rw [List.foldl_cons, ih _]
    rcases hmc : mget likedTopics t with _ | c
    · simp only [hmc, Option.isSome_none, Bool.false_eq_true, if_false,
        List.map_cons, List.sum_cons]
      ring
    · simp only [hmc, Option.isSome_some, if_true, Option.getD_some,
        List.map_cons, List.sum_cons]
      ring

/-- Claim C1 (amended): the feed scorer of the full controller
(src/unnamed/part_003 lines 514-549) computes exactly the claimed sum —
+100 base affinity, +10 per liked-category count, +5 per liked-topic
count, the recency bonus max(0, 5 - ageInDays/5) and -50 on detected
toxicity, with no clamping — for every post carrying an analysis with a
non-empty category. (The short controller variant deviates; see the
accompanying counterexample.) -/
theorem fullScorer_matches_claimed_formula (followedUsersIds : List String)
    (ownUserId : String) (likedCategories likedTopics : List (String × Int))
    (now : Int) (post : Post) (a : AiAnalysis)
    (hpost : post.aiAnalysis = some a) (hcat : a.category ≠ "") :
    FullController.scorePost followedUsersIds ownUserId likedCategories
        likedTopics now post
      = claimedScore followedUsersIds ownUserId likedCategories likedTopics
          now post a := by
  unfold FullController.scorePost claimedScore
  rw [hpost]
  have hrec : ((((now - post.createdAt : Int) : ℚ) / 86400000) / 5)
      = ((now - post.createdAt : Int) : ℚ) / (86400000 * 5) := div_div _ _ _
  by_cases hauth : post.userId ∈ followedUsersIds ∨ post.userId = ownUserId <;>
    rcases hmc : mget likedCategories a.category with _ | c <;>
      by_cases htox : a.toxicity.detected = true <;>
        by_cases hl : a.topics.length > 0
  all_goals
    simp only [hauth, hmc, htox, hcat, ne_eq, not_false_iff, true_and,
      Option.isSome_none, Option.isSome_some, Bool.false_eq_true,
      Option.getD_some, if_true, if_false, ite_true, ite_false, hl,
      fullTopicsFold, hrec]
  all_goals
    try (have hnil : a.topics = [] := List.length_eq_zero.1 (by omega)
         simp only [hnil, List.map_nil, List.sum_nil])
  all_goals ring

theorem fullScorer_matches_claimed_formula_witness :
    FullController.scorePost [] "u1" [] [] 0 cexPost
      = claimedScore [] "u1" [] [] 0 cexPost plainAnalysis :=
  fullScorer_matches_claimed_formula [] "u1" [] [] 0 cexPost plainAnalysis
    rfl (by decide)

/-- Claim C1, counterexample: the scorer of the short controller
(src/controllers/postController.js lines 220-247) does not compute the
claimed sum — for a followed author, empty preferences, a 25-day-old
non-toxic post it returns 10 where the claimed formula gives 100 (its
constants are +10 base, x2 category, x1 topic, -5 toxicity). -/
theorem shortScorer_violates_claimed_formula :
    ShortController.scorePost ["u2"] "u1" [] [] 2160000000 cexPost
      ≠ claimedScore ["u2"] "u1" [] [] 2160000000 cexPost plainAnalysis
    ∧ cexPost.aiAnalysis = some plainAnalysis := by
  refine ⟨?_, rfl⟩
  have h1 : ShortController.scorePost ["u2"] "u1" [] [] 2160000000 cexPost
      = 10 := by
    unfold ShortController.scorePost
    norm_num [cexPost, plainAnalysis, mget]
  have h2 : claimedScore ["u2"] "u1" [] [] 2160000000 cexPost plainAnalysis
      = 100 := by
    unfold claimedScore
    norm_num [cexPost, plainAnalysis, mget]
  rw [h1, h2]
  norm_num

theorem feedOrder_trans (a b c : Post × ℚ) (h1 : ShortController.feedOrder a b)
    (h2 : ShortController.feedOrder b c) : ShortController.feedOrder a c := by
  rcases h1 with h1 | ⟨h1e, h1d⟩
  · rcases h2 with h2 | ⟨h2e, h2d⟩
    · exact Or.inl (h2.trans h1)
    · exact Or.inl (h2e ▸ h1)
  · rcases h2 with h2 | ⟨h2e, h2d⟩
    · exact Or.inl (h1e ▸ h2)
    · exact Or.inr ⟨h1e.trans h2e, h2d.trans h1d⟩

theorem feedOrder_total (a b : Post × ℚ) :
    ShortController.feedOrder a b ∨ ShortController.feedOrder b a := by
  rcases lt_trichotomy a.2 b.2 with h | h | h
  · exact Or.inr (Or.inl h)
  · rcases le_total b.1.createdAt a.1.createdAt with hd | hd
    · exact Or.inl (Or.inr ⟨h, hd⟩)
    · exact Or.inr (Or.inr ⟨h.symm, hd⟩)
  · exact Or.inl (Or.inl h)

/-- Claim C8: the ranking step of getFeedPosts returns exactly the input
posts (a permutation — nothing added or removed), each paired with its
computed score, ordered so that scores are non-increasing and any two
entries with equal scores are ordered by createdAt descending. -/
theorem rankFeed_perm_scored_sorted (followedUsersIds : List String)
    (ownUserId : String) (likedCategories likedTopics : List (String × Int))
    (now : Int) (posts : List Post) :
    ((ShortController.rankFeed followedUsersIds ownUserId likedCategories
        likedTopics now posts).map Prod.fst).Perm posts
    ∧ (∀ e ∈ ShortController.rankFeed followedUsersIds ownUserId
          likedCategories likedTopics now posts,
        e.2 = ShortController.scorePost followedUsersIds ownUserId
          likedCategories likedTopics now e.1)
    ∧ List.Pairwise
        (fun a b => b.2 ≤ a.2 ∧ (a.2 = b.2 → b.1.createdAt ≤ a.1.createdAt))
        (ShortController.rankFeed followedUsersIds ownUserId likedCategories
          likedTopics now posts) := by
  refine ⟨?_, ?_, ?_⟩
  · have hperm := List.mergeSort_perm
      (posts.map (fun post =>
        (post, ShortController.scorePost followedUsersIds ownUserId
          likedCategories likedTopics now post)))
      (fun a b => decide (ShortController.feedOrder a b))
    have h2 := hperm.map Prod.fst
    unfold ShortController.rankFeed
    refine h2.trans ?_
    rw [List.map_map]
    have : (Prod.fst ∘ fun post =>
        (post, ShortController.scorePost followedUsersIds ownUserId
          likedCategories likedTopics now post)) = id := rfl
    rw [this, List.map_id]
  · intro e he
    unfold ShortController.rankFeed at he
    rw [List.mem_mergeSort] at he
    obtain ⟨p, _, rfl⟩ := List.mem_map.1 he
    rfl
  · have hs := @List.sorted_mergeSort (Post × ℚ)
      (fun a b => decide (ShortController.feedOrder a b))
      (fun a b c h1 h2 => by
        simp only [decide_eq_true_eq] at h1 h2 ⊢
        exact feedOrder_trans a b c h1 h2)
      (fun a b => by
        simp only [Bool.or_eq_true, decide_eq_true_eq]
        exact feedOrder_total a b)
      (posts.map (fun post =>
        (post, ShortController.scorePost followedUsersIds ownUserId
          likedCategories likedTopics now post)))
    unfold ShortController.rankFeed
    refine hs.imp ?_
    intro a b h
    simp only [decide_eq_true_eq] at h
    rcases h with h | ⟨he, hd⟩
    · exact ⟨le_of_lt h, fun heq => absurd (heq ▸ h) (lt_irrefl _)⟩
    · exact ⟨le_of_eq he.symm, fun _ => hd⟩

theorem rankFeed_perm_scored_sorted_witness :
    ((ShortController.rankFeed [] "u1" [] [] 0 [cexPost]).map Prod.fst).Perm
      [cexPost]
    ∧ (cexPost, ShortController.scorePost [] "u1" [] [] 0 cexPost).2
        = ShortController.scorePost [] "u1" [] [] 0
            (cexPost, ShortController.scorePost [] "u1" [] [] 0 cexPost).1 :=
  ⟨(rankFeed_perm_scored_sorted [] "u1" [] [] 0 [cexPost]).1,
   (rankFeed_perm_scored_sorted [] "u1" [] [] 0 [cexPost]).2.1 _
     (by
       unfold ShortController.rankFeed
       rw [List.mem_mergeSort]
       simp)⟩

/-- Claim C9: the short controller's scorer is a pure function of the
inputs it reads — two posts agreeing on author id, creation time and
analysis record receive identical scores for the same viewer context and
clock, whatever their other fields; determinism on identical inputs is the
special case, and absence of mutation holds by construction in this
functional model. -/
theorem scorePost_deterministic_pure (followedUsersIds : List String)
    (ownUserId : String) (likedCategories likedTopics : List (String × Int))
    (now : Int) (p q : Post) (h1 : p.userId = q.userId)
    (h2 : p.createdAt = q.createdAt) (h3 : p.aiAnalysis = q.aiAnalysis) :
    ShortController.scorePost followedUsersIds ownUserId likedCategories
        likedTopics now p
      = ShortController.scorePost followedUsersIds ownUserId likedCategories
          likedTopics now q := by
  unfold ShortController.scorePost
  rw [h1, h2, h3]

theorem scorePost_deterministic_pure_witness :
    ShortController.scorePost [] "v" [] [] 0 ⟨"u", "a", [], 0, none⟩
      = ShortController.scorePost [] "v" [] [] 0 ⟨"u", "b", ["x"], 0, none⟩ :=
  scorePost_deterministic_pure [] "v" [] [] 0 _ _ rfl rfl rfl
